import Mathlib

/-!
Verification of the crianza middle-end (compiler.py, optimizer.py) against its
specification.  The program operates on flat sequences of dynamically typed
values (Python ints, bools, strings, and instruction function objects); we
embed that value domain as the inductive type `Item` and translate the
functions of `src/crianza/compiler.py` and `src/crianza/optimizer.py`
line by line.  Float literals are outside the embedded domain.

The repository modules `instructions.py` and `interpreter.py` are not part of
the provided sources; the definitions that stand in for them are modelled from
the specification (sections 2, 3, 4.1 and 6) and are marked as such in their
doc comments.
-/

namespace Crianza

instance {α β : Type} [DecidableEq α] [DecidableEq β] : DecidableEq (Except α β) := fun a b =>
  match a, b with
  | .ok x, .ok y =>
    if h : x = y then .isTrue (by rw [h])
    else .isFalse (by intro hc; injection hc; exact h (by assumption))
  | .error x, .error y =>
    if h : x = y then .isTrue (by rw [h])
    else .isFalse (by intro hc; injection hc; exact h (by assumption))
  | .ok _, .error _ => .isFalse (by intro hc; cases hc)
  | .error _, .ok _ => .isFalse (by intro hc; cases hc)

/-- Modelled from the spec: the closed enumeration of instruction kinds
(spec section 3, "Opcode"), one constructor per mnemonic of the instruction
set listed in `native.py` (opmap). `instructions.py` itself is not among the
provided sources. -/
inductive Instr where
  | mod | bitand | mul | add | sub | dot | div | less | noteq | eq
  | greater | at_ | bitxor | abs_ | booland | castbool | call | drop
  | dup | exit | false_ | castfloat | if_ | castint | jmp | negate
  | nop | boolnot | boolor | over | read | return_ | rot | caststr
  | swap | true_ | write | bitor | bitcompl
deriving DecidableEq

/-- Modelled from the spec: the immutable registry mapping mnemonics to
opcodes (spec section 2, "InstructionSet"); mnemonics as in `native.py`. -/
def instrTable : List (String × Instr) :=
  [("%", .mod), ("&", .bitand), ("*", .mul), ("+", .add), ("-", .sub),
   (".", .dot), ("/", .div), ("<", .less), ("<>", .noteq), ("=", .eq),
   (">", .greater), ("@", .at_), ("^", .bitxor), ("abs", .abs_),
   ("and", .booland), ("bool", .castbool), ("call", .call), ("drop", .drop),
   ("dup", .dup), ("exit", .exit), ("false", .false_), ("float", .castfloat),
   ("if", .if_), ("int", .castint), ("jmp", .jmp), ("negate", .negate),
   ("nop", .nop), ("not", .boolnot), ("or", .boolor), ("over", .over),
   ("read", .read), ("return", .return_), ("rot", .rot), ("str", .caststr),
   ("swap", .swap), ("true", .true_), ("write", .write), ("|", .bitor),
   ("~", .bitcompl)]

/-- Mnemonic-to-opcode direction of `instructions.lookup`. -/
def lookupName (s : String) : Option Instr :=
  (instrTable.find? (fun p => p.1 = s)).map (fun p => p.2)

/-- Opcode-to-mnemonic direction of `instructions.lookup`. -/
def instrName (f : Instr) : String :=
  (((instrTable.find? (fun p => p.2 = f)).map (fun p => p.1)).getD "")

/-- The mnemonics of the built-in instruction set
(`Machine([]).instructions` keys, compiler.py:90). -/
def builtinNames : List String := instrTable.map (fun p => p.1)

/-- One element of a code sequence: the dynamically typed Python values the
middle-end manipulates (spec section 3, "CodeItem").  Native integers, native
booleans, strings (quoted string literals, mnemonics, boolean keywords and
bare subroutine names are all strings before materialization), and
instruction function objects (produced only by materialization). -/
inductive Item where
  | int (n : Int)
  | bool (b : Bool)
  | str (s : String)
  | fn (f : Instr)
deriving DecidableEq

/-- Double-quote character (written via its code point to keep character
literals out of the sources). -/
def dquote : Char := Char.ofNat 34

/-- Single-quote character. -/
def squote : Char := Char.ofNat 39

/-- Python's chained test `c[0] == c[-1] == QUOTE` for either quote
character (compiler.py:172). -/
def pyQuotedStr (s : String) : Bool :=
  decide ((s.data.head? = some dquote ∧ s.data.getLast? = some dquote) ∨
          (s.data.head? = some squote ∧ s.data.getLast? = some squote))

/-- Python slice `s[1:-1]`, used to strip the quotes off a string literal
(optimizer.py:135, optimizer.py:148, compiler.py:173). -/
def pyUnquote (s : String) : String := String.mk ((s.data.drop 1).dropLast)

/-- Python formatting `'"%s"' % s` (optimizer.py:151). -/
def pyQuote (s : String) : String := String.mk (dquote :: (s.data ++ [dquote]))

/-- Modelled from the spec: `interpreter.isstring`, true exactly on quoted
string literals (spec section 3, "StringLiteral"; section 6 admits single- or
double-quoted literals).  `interpreter.py` is not among the provided
sources. -/
def isstring : Item → Bool
  | .str s => pyQuotedStr s
  | _ => false

/-- Modelled from the spec: `interpreter.isnumber`, true on numeric literals
(spec section 3; floats are outside the embedded domain). -/
def isnumber : Item → Bool
  | .int _ => true
  | _ => false

/-- Modelled from the spec: `interpreter.isbool`, true on native booleans and
on the boolean keywords (spec section 4.3 step 8 converts boolean keywords to
native booleans, so the predicate must recognize both forms). -/
def isbool : Item → Bool
  | .bool _ => true
  | .str s => decide (s = "true" ∨ s = "false")
  | _ => false

/-- Modelled from the spec: `interpreter.isconstant`, a literal of any kind
(spec section 4.1). -/
def isconstant (it : Item) : Bool := isbool it || isnumber it || isstring it

/-- Python `isinstance(x, int)`: true on ints and (since bool is a subtype of
int in Python) on bools (optimizer.py:90). -/
def isinstance_int : Item → Bool
  | .int _ => true
  | .bool _ => true
  | _ => false

/-- Python `isinstance(x, str)` (optimizer.py:98). -/
def isinstance_str : Item → Bool
  | .str _ => true
  | _ => false

/-- Python `isinstance(x, bool)` (optimizer.py:106). -/
def isinstance_bool : Item → Bool
  | .bool _ => true
  | _ => false

/-- Python `str(x)` on the constant items (decimal for ints, True/False for
bools, identity on strings). -/
def pyStr : Item → String
  | .int n => toString n
  | .bool b => if b then "True" else "False"
  | .str s => s
  | .fn f => instrName f

/-- Python truthiness `bool(x)` on the embedded values: nonzero for ints,
identity for bools, nonempty for strings (optimizer.py:163). -/
def pyTruthy : Item → Bool
  | .int n => decide (n ≠ 0)
  | .bool b => b
  | .str s => decide (s ≠ "")
  | .fn _ => true

/-- The raw characters of a string item (helper for the quote-stripping
branches). -/
def rawStr : Item → String
  | .str s => s
  | _ => ""

/-- Numeric value of a digit run. -/
def digitsVal (cs : List Char) : Nat :=
  cs.foldl (fun n c => 10 * n + (c.toNat - 48)) 0

/-- Modelled from the spec: Python's `int(string)` conversion used by the
string-to-int folding rule (optimizer.py:135) — surrounding whitespace, an
optional sign, then a nonempty digit run; anything else raises ValueError
(here: `none`). -/
def pyParseInt (s : String) : Option Int :=
  let cs := ((s.data.dropWhile Char.isWhitespace).reverse.dropWhile
              Char.isWhitespace).reverse
  match cs with
  | [] => none
  | c :: rest =>
    if c = '-' then
      if rest ≠ [] ∧ rest.all Char.isDigit then some (-(digitsVal rest : Int)) else none
    else if c = '+' then
      if rest ≠ [] ∧ rest.all Char.isDigit then some ((digitsVal rest : Int)) else none
    else
      if (c :: rest).all Char.isDigit then some ((digitsVal (c :: rest) : Int)) else none

/-- Modelled from the spec: `instructions.lookup` applied to a code item — a
string resolves to its opcode, an opcode function resolves back to its
mnemonic, anything else fails (usage at compiler.py:11, compiler.py:106,
compiler.py:179). -/
def lookupItem : Item → Option Item
  | .str s => (lookupName s).map Item.fn
  | .fn f => some (.str (instrName f))
  | _ => none

/-- The mnemonic strings the optimizer folds over
(optimizer.py:21, the `arithmetic` list: `instructions.lookup` of an opcode
function yields its mnemonic). -/
def arithmetic : List Item :=
  [.str "+", .str "&", .str "|", .str "^", .str "/", .str "=",
   .str ">", .str "<", .str "%", .str "*", .str "-"]

/-- The two operators whose zero-divisor triples are special-cased
(optimizer.py:35). -/
def divzero : List Item := [.str "/", .str "%"]

/-- Modelled from the spec: the minimal constant evaluator
(`interpreter.Machine([a,b,c]).run().top`, optimizer.py:63) on a two-operand
arithmetic slice, with Python 2 integer semantics: `/` is floor division and
`%` takes the divisor's sign; comparisons push native booleans. -/
def evalArithStr (x y : Int) (s : String) : Item :=
  if s = "+" then .int (x + y)
  else if s = "-" then .int (x - y)
  else if s = "*" then .int (x * y)
  else if s = "/" then .int (Int.fdiv x y)
  else if s = "%" then .int (Int.fmod x y)
  else if s = "&" then .int (Int.land x y)
  else if s = "|" then .int (Int.lor x y)
  else if s = "^" then .int (Int.xor x y)
  else if s = "<" then .bool (decide (x < y))
  else if s = ">" then .bool (decide (x > y))
  else if s = "=" then .bool (decide (x = y))
  else .int 0

def evalArith (x y : Int) (op : Item) : Item :=
  match op with
  | .str s => evalArithStr x y s
  | _ => .int 0

/-- Outcome of testing the rewrite rules at one scan position. -/
inductive RuleOut where
  | noMatch
  | divSkip
  | divRaise
  | rewrite (mid : List Item) (k : Nat)
deriving DecidableEq

/-- Constant folding of `num num arith-op` (optimizer.py:49-71), including
the zero-divisor special case: skipped when `ignore_errors`, raised
otherwise (optimizer.py:55-60). -/
def tryRule1 (ign : Bool) (a : Item) (rest : List Item) : Option RuleOut :=
  match a, rest with
  | .int x, .int y :: op :: _ =>
    if op ∈ arithmetic then
      some (if y = 0 ∧ op ∈ divzero then (if ign then .divSkip else .divRaise)
            else .rewrite [evalArith x y op] 3)
    else none
  | _, _ => none

/-- Translate `const dup` to `const const` (optimizer.py:74, the assignment
`code[i+1] = a`). -/
def tryRule2 (a : Item) (rest : List Item) : Option RuleOut :=
  match rest with
  | b :: _ =>
    if isconstant a ∧ b = Item.str "dup" then some (.rewrite [a, a] 2) else none
  | [] => none

/-- Dead code removal `const drop` (optimizer.py:82, `del code[i:i+2]`). -/
def tryRule3 (a : Item) (rest : List Item) : Option RuleOut :=
  match rest with
  | b :: _ =>
    if isconstant a ∧ b = Item.str "drop" then some (.rewrite [] 2) else none
  | [] => none

/-- Dead code removal `int cast_int` (optimizer.py:90, `del code[i+1]`;
note the Python `isinstance(a, int)` guard also admits booleans). -/
def tryRule4 (a : Item) (rest : List Item) : Option RuleOut :=
  match rest with
  | b :: _ =>
    if isinstance_int a ∧ b = Item.str "int" then some (.rewrite [a] 2) else none
  | [] => none

/-- Dead code removal `str cast_str` (optimizer.py:98; the guard is
`isinstance(a, str)`, so it admits any string item). -/
def tryRule5 (a : Item) (rest : List Item) : Option RuleOut :=
  match rest with
  | b :: _ =>
    if isinstance_str a ∧ b = Item.str "str" then some (.rewrite [a] 2) else none
  | [] => none

/-- Dead code removal `bool cast_bool` (optimizer.py:106). -/
def tryRule6 (a : Item) (rest : List Item) : Option RuleOut :=
  match rest with
  | b :: _ =>
    if isinstance_bool a ∧ b = Item.str "bool" then some (.rewrite [a] 2) else none
  | [] => none

/-- `c1 c2 swap` to `c2 c1` (optimizer.py:114-116). -/
def tryRule7 (a : Item) (rest : List Item) : Option RuleOut :=
  match rest with
  | b :: c :: _ =>
    if (isconstant a && isconstant b) ∧ c = Item.str "swap" then
      some (.rewrite [b, a] 3)
    else none
  | _ => none

/-- `a b over` to `a b a` (optimizer.py:124, `code[i+2] = a`). -/
def tryRule8 (a : Item) (rest : List Item) : Option RuleOut :=
  match rest with
  | b :: c :: _ =>
    if (isconstant a && isconstant b) ∧ c = Item.str "over" then
      some (.rewrite [a, b, a] 3)
    else none
  | _ => none

/-- `"123" cast_int` to `123` (optimizer.py:132-144); a ValueError from
`int()` falls through to the remaining rules (`except ValueError: pass`). -/
def tryRule9 (a : Item) (rest : List Item) : Option RuleOut :=
  match rest with
  | b :: _ =>
    if isstring a ∧ b = Item.str "int" then
      match pyParseInt (pyUnquote (rawStr a)) with
      | some n => some (.rewrite [.int n] 2)
      | none => none
    else none
  | [] => none

/-- Result item of the `const cast_str` rule (optimizer.py:146-153): requote
a string's content, otherwise quote the Python text form. -/
def caststrResult (a : Item) : Item :=
  .str (pyQuote (if isstring a then pyUnquote (rawStr a) else pyStr a))

/-- `const cast_str` to a quoted string literal (optimizer.py:146-157). -/
def tryRule10 (a : Item) (rest : List Item) : Option RuleOut :=
  match rest with
  | b :: _ =>
    if isconstant a ∧ b = Item.str "str" then
      some (.rewrite [caststrResult a] 2)
    else none
  | [] => none

/-- Result item of the `const cast_bool` rule (optimizer.py:159-165): strip
quotes from string literals, then take Python truthiness. -/
def castboolResult (a : Item) : Item :=
  .bool (pyTruthy (if isstring a then Item.str (pyUnquote (rawStr a)) else a))

/-- `const cast_bool` to a native boolean (optimizer.py:159-169). -/
def tryRule11 (a : Item) (rest : List Item) : Option RuleOut :=
  match rest with
  | b :: _ =>
    if isconstant a ∧ b = Item.str "bool" then
      some (.rewrite [castboolResult a] 2)
    else none
  | [] => none

/-- The rule dispatch at one scan position, testing the rewrite rules in the
order of the source (optimizer.py:44-169): the first guard that holds wins. -/
def findRule (ign : Bool) (a : Item) (rest : List Item) : RuleOut :=
  match tryRule1 ign a rest with
  | some r => r
  | none =>
  match tryRule2 a rest with
  | some r => r
  | none =>
  match tryRule3 a rest with
  | some r => r
  | none =>
  match tryRule4 a rest with
  | some r => r
  | none =>
  match tryRule5 a rest with
  | some r => r
  | none =>
  match tryRule6 a rest with
  | some r => r
  | none =>
  match tryRule7 a rest with
  | some r => r
  | none =>
  match tryRule8 a rest with
  | some r => r
  | none =>
  match tryRule9 a rest with
  | some r => r
  | none =>
  match tryRule10 a rest with
  | some r => r
  | none =>
  match tryRule11 a rest with
  | some r => r
  | none => .noMatch

/-- Result of one full left-to-right scan of the code (one pass of the
`for i, a in enumerate(code)` loop, optimizer.py:44): either the scan
completed with no rewrite (`done`, so `keep_running` stays false), or a
compile error was raised, or the first matching rule was applied and the
outer loop restarts on the new sequence (`next`). -/
inductive StepRes where
  | done
  | err (e : String)
  | next (code : List Item)
deriving DecidableEq

/-- The scan itself.  `acc` is the (reversed) already-scanned prefix; a
rewrite at the current position splices `mid` in place of the first `k`
items of the unscanned suffix, exactly as the `del`/`insert`/assignment
splices of the source do at index `i`.  The zero-divisor `continue`
(optimizer.py:57) moves to the next position without rewriting. -/
def scanAux (ign : Bool) (acc : List Item) : List Item → StepRes
  | [] => .done
  | a :: rest =>
    match findRule ign a rest with
    | .noMatch => scanAux ign (a :: acc) rest
    | .divSkip => scanAux ign (a :: acc) rest
    | .divRaise => .err "Division by zero"
    | .rewrite mid k => .next (acc.reverse ++ (mid ++ (a :: rest).drop k))

/-- One iteration of the `while keep_running` loop (optimizer.py:41). -/
def foldOnce (ign : Bool) (code : List Item) : StepRes := scanAux ign [] code

/-- Termination measure for the rewrite loop: sequence length plus the
number of non-constant items.  Every rule either strictly shortens the
sequence or replaces a non-constant item by a constant one. -/
def foldMeasure (code : List Item) : Nat :=
  code.length + code.countP (fun it => !isconstant it)

end Crianza

namespace Crianza

theorem isconstant_int (n : Int) : isconstant (.int n) = true := rfl

theorem isconstant_bool (b : Bool) : isconstant (.bool b) = true := rfl

set_option maxHeartbeats 2000000 in
theorem evalArithStr_const (x y : Int) (s : String) :
    isconstant (evalArithStr x y s) = true := by
  unfold evalArithStr
  split_ifs <;> rfl

theorem evalArith_const (x y : Int) (op : Item) :
    isconstant (evalArith x y op) = true := by
  cases op <;> simp [evalArith, evalArithStr_const, isconstant_int]

theorem arith_not_const (op : Item) (h : op ∈ arithmetic) :
    isconstant op = false := by
  fin_cases h <;> decide

theorem isinstance_int_const (a : Item) (h : isinstance_int a = true) :
    isconstant a = true := by
  cases a <;> simp_all [isinstance_int, isconstant, isnumber, isbool]

theorem isinstance_bool_const (a : Item) (h : isinstance_bool a = true) :
    isconstant a = true := by
  cases a <;> simp_all [isinstance_bool, isconstant, isbool]

theorem pyQuotedStr_pyQuote (s : String) : pyQuotedStr (pyQuote s) = true := by
  simp only [pyQuotedStr, pyQuote, decide_eq_true_eq]
  left
  refine ⟨rfl, ?_⟩
  rw [show dquote :: (s.data ++ [dquote]) = (dquote :: s.data) ++ [dquote] by simp]
  exact List.getLast?_concat _

theorem caststrResult_const (a : Item) : isconstant (caststrResult a) = true := by
  simp [caststrResult, isconstant, isstring, pyQuotedStr_pyQuote]

theorem foldMeasure_append (xs ys : List Item) :
    foldMeasure (xs ++ ys) = foldMeasure xs + foldMeasure ys := by
  simp [foldMeasure, List.countP_append]
  omega

theorem tryRule1_measure (ign : Bool) (a : Item) (rest mid : List Item) (k : Nat)
    (h : tryRule1 ign a rest = some (.rewrite mid k)) :
    foldMeasure (mid ++ (a :: rest).drop k) < foldMeasure (a :: rest) := by
  unfold tryRule1 at h
  split at h
  · next x y op t =>
    split at h
    · next hop =>
      injection h with h
      split at h
      · split at h <;> cases h
      · injection h with hmid hk
        subst hmid
        subst hk
        have hc1 := evalArith_const x y op
        have hc2 := arith_not_const op hop
        simp [foldMeasure, List.countP_cons, hc1, hc2, isconstant_int]
        omega
    · cases h
  · cases h

theorem tryRule2_measure (a : Item) (rest mid : List Item) (k : Nat)
    (h : tryRule2 a rest = some (.rewrite mid k)) :
    foldMeasure (mid ++ (a :: rest).drop k) < foldMeasure (a :: rest) := by
  unfold tryRule2 at h
  split at h
  · next b t =>
    split at h
    · next hg =>
      obtain ⟨hca, hb⟩ := hg
      subst hb
      injection h with h
      injection h with hmid hk
      subst hmid
      subst hk
      have hdup : isconstant (Item.str "dup") = false := by decide
      simp [foldMeasure, List.countP_cons, hca, hdup]
    · cases h
  · cases h

theorem tryRule3_measure (a : Item) (rest mid : List Item) (k : Nat)
    (h : tryRule3 a rest = some (.rewrite mid k)) :
    foldMeasure (mid ++ (a :: rest).drop k) < foldMeasure (a :: rest) := by
  unfold tryRule3 at h
  split at h
  · next b t =>
    split at h
    · next hg =>
      obtain ⟨hca, hb⟩ := hg
      subst hb
      injection h with h
      injection h with hmid hk
      subst hmid
      subst hk
      have hdrop : isconstant (Item.str "drop") = false := by decide
      simp [foldMeasure, List.countP_cons, hca, hdrop]
      omega
    · cases h
  · cases h

theorem tryRule4_measure (a : Item) (rest mid : List Item) (k : Nat)
    (h : tryRule4 a rest = some (.rewrite mid k)) :
    foldMeasure (mid ++ (a :: rest).drop k) < foldMeasure (a :: rest) := by
  unfold tryRule4 at h
  split at h
  · next b t =>
    split at h
    · next hg =>
      obtain ⟨hca, hb⟩ := hg
      subst hb
      injection h with h
      injection h with hmid hk
      subst hmid
      subst hk
      have hc := isinstance_int_const a hca
      have hint : isconstant (Item.str "int") = false := by decide
      simp [foldMeasure, List.countP_cons, hc, hint]
      omega
    · cases h
  · cases h

theorem tryRule5_measure (a : Item) (rest mid : List Item) (k : Nat)
    (h : tryRule5 a rest = some (.rewrite mid k)) :
    foldMeasure (mid ++ (a :: rest).drop k) < foldMeasure (a :: rest) := by
  unfold tryRule5 at h
  split at h
  · next b t =>
    split at h
    · next hg =>
      obtain ⟨_, hb⟩ := hg
      subst hb
      injection h with h
      injection h with hmid hk
      subst hmid
      subst hk
      have hstr : isconstant (Item.str "str") = false := by decide
      cases hca : isconstant a <;>
        simp [foldMeasure, List.countP_cons, hca, hstr] <;> omega
    · cases h
  · cases h

theorem tryRule6_measure (a : Item) (rest mid : List Item) (k : Nat)
    (h : tryRule6 a rest = some (.rewrite mid k)) :
    foldMeasure (mid ++ (a :: rest).drop k) < foldMeasure (a :: rest) := by
  unfold tryRule6 at h
  split at h
  · next b t =>
    split at h
    · next hg =>
      obtain ⟨hca, hb⟩ := hg
      subst hb
      injection h with h
      injection h with hmid hk
      subst hmid
      subst hk
      have hc := isinstance_bool_const a hca
      have hbool : isconstant (Item.str "bool") = false := by decide
      simp [foldMeasure, List.countP_cons, hc, hbool]
      omega
    · cases h
  · cases h

theorem tryRule7_measure (a : Item) (rest mid : List Item) (k : Nat)
    (h : tryRule7 a rest = some (.rewrite mid k)) :
    foldMeasure (mid ++ (a :: rest).drop k) < foldMeasure (a :: rest) := by
  unfold tryRule7 at h
  split at h
  · next b c t =>
    split at h
    · next hg =>
      obtain ⟨hcc, hc⟩ := hg
      rw [Bool.and_eq_true] at hcc
      obtain ⟨hca, hcb⟩ := hcc
      subst hc
      injection h with h
      injection h with hmid hk
      subst hmid
      subst hk
      have hswap : isconstant (Item.str "swap") = false := by decide
      simp [foldMeasure, List.countP_cons, hca, hcb, hswap]
      omega
    · cases h
  · cases h

theorem tryRule8_measure (a : Item) (rest mid : List Item) (k : Nat)
    (h : tryRule8 a rest = some (.rewrite mid k)) :
    foldMeasure (mid ++ (a :: rest).drop k) < foldMeasure (a :: rest) := by
  unfold tryRule8 at h
  split at h
  · next b c t =>
    split at h
    · next hg =>
      obtain ⟨hcc, hc⟩ := hg
      rw [Bool.and_eq_true] at hcc
      obtain ⟨hca, hcb⟩ := hcc
      subst hc
      injection h with h
      injection h with hmid hk
      subst hmid
      subst hk
      have hover : isconstant (Item.str "over") = false := by decide
      simp [foldMeasure, List.countP_cons, hca, hcb, hover]
    · cases h
  · cases h

theorem tryRule9_measure (a : Item) (rest mid : List Item) (k : Nat)
    (h : tryRule9 a rest = some (.rewrite mid k)) :
    foldMeasure (mid ++ (a :: rest).drop k) < foldMeasure (a :: rest) := by
  unfold tryRule9 at h
  split at h
  · next b t =>
    split at h
    · next hg =>
      obtain ⟨hca, hb⟩ := hg
      subst hb
      split at h
      · next n hp =>
        injection h with h
        injection h with hmid hk
        subst hmid
        subst hk
        have hcs : isconstant a = true := by simp [isconstant, hca]
        have hint : isconstant (Item.str "int") = false := by decide
        simp [foldMeasure, List.countP_cons, hcs, hint, isconstant_int]
        omega
      · cases h
    · cases h
  · cases h

theorem tryRule10_measure (a : Item) (rest mid : List Item) (k : Nat)
    (h : tryRule10 a rest = some (.rewrite mid k)) :
    foldMeasure (mid ++ (a :: rest).drop k) < foldMeasure (a :: rest) := by
  unfold tryRule10 at h
  split at h
  · next b t =>
    split at h
    · next hg =>
      obtain ⟨hca, hb⟩ := hg
      subst hb
      injection h with h
      injection h with hmid hk
      subst hmid
      subst hk
      have hstr : isconstant (Item.str "str") = false := by decide
      simp [foldMeasure, List.countP_cons, hca, hstr, caststrResult_const]
      omega
    · cases h
  · cases h

theorem tryRule11_measure (a : Item) (rest mid : List Item) (k : Nat)
    (h : tryRule11 a rest = some (.rewrite mid k)) :
    foldMeasure (mid ++ (a :: rest).drop k) < foldMeasure (a :: rest) := by
  unfold tryRule11 at h
  split at h
  · next b t =>
    split at h
    · next hg =>
      obtain ⟨hca, hb⟩ := hg
      subst hb
      injection h with h
      injection h with hmid hk
      subst hmid
      subst hk
      have hbool : isconstant (Item.str "bool") = false := by decide
      simp [foldMeasure, List.countP_cons, hca, hbool, castboolResult, isconstant_bool]
      omega
    · cases h
  · cases h

theorem findRule_rewrite_measure (ign : Bool) (a : Item) (rest mid : List Item)
    (k : Nat) (h : findRule ign a rest = .rewrite mid k) :
    foldMeasure (mid ++ (a :: rest).drop k) < foldMeasure (a :: rest) := by
  unfold findRule at h
  cases h1 : tryRule1 ign a rest with
  | some r => rw [h1] at h; simp at h; subst h; exact tryRule1_measure ign a rest mid k h1
  | none =>
  rw [h1] at h; simp only [] at h
  cases h2 : tryRule2 a rest with
  | some r => rw [h2] at h; simp at h; subst h; exact tryRule2_measure a rest mid k h2
  | none =>
  rw [h2] at h; simp only [] at h
  cases h3 : tryRule3 a rest with
  | some r => rw [h3] at h; simp at h; subst h; exact tryRule3_measure a rest mid k h3
  | none =>
  rw [h3] at h; simp only [] at h
  cases h4 : tryRule4 a rest with
  | some r => rw [h4] at h; simp at h; subst h; exact tryRule4_measure a rest mid k h4
  | none =>
  rw [h4] at h; simp only [] at h
  cases h5 : tryRule5 a rest with
  | some r => rw [h5] at h; simp at h; subst h; exact tryRule5_measure a rest mid k h5
  | none =>
  rw [h5] at h; simp only [] at h
  cases h6 : tryRule6 a rest with
  | some r => rw [h6] at h; simp at h; subst h; exact tryRule6_measure a rest mid k h6
  | none =>
  rw [h6] at h; simp only [] at h
  cases h7 : tryRule7 a rest with
  | some r => rw [h7] at h; simp at h; subst h; exact tryRule7_measure a rest mid k h7
  | none =>
  rw [h7] at h; simp only [] at h
  cases h8 : tryRule8 a rest with
  | some r => rw [h8] at h; simp at h; subst h; exact tryRule8_measure a rest mid k h8
  | none =>
  rw [h8] at h; simp only [] at h
  cases h9 : tryRule9 a rest with
  | some r => rw [h9] at h; simp at h; subst h; exact tryRule9_measure a rest mid k h9
  | none =>
  rw [h9] at h; simp only [] at h
  cases h10 : tryRule10 a rest with
  | some r => rw [h10] at h; simp at h; subst h; exact tryRule10_measure a rest mid k h10
  | none =>
  rw [h10] at h; simp only [] at h
  cases h11 : tryRule11 a rest with
  | some r => rw [h11] at h; simp at h; subst h; exact tryRule11_measure a rest mid k h11
  | none => rw [h11] at h; simp at h

theorem scanAux_next_measure (ign : Bool) :
    ∀ (rest acc c' : List Item), scanAux ign acc rest = .next c' →
      foldMeasure c' < foldMeasure (acc.reverse ++ rest) := by
  intro rest
  induction rest with
  | nil => intro acc c' h; simp [scanAux] at h
  | cons a t ih =>
    intro acc c' h
    unfold scanAux at h
    cases hr : findRule ign a t with
    | noMatch =>
      rw [hr] at h
      have hlt := ih (a :: acc) c' h
      rw [List.reverse_cons, List.append_assoc] at hlt
      simpa using hlt
    | divSkip =>
      rw [hr] at h
      have hlt := ih (a :: acc) c' h
      rw [List.reverse_cons, List.append_assoc] at hlt
      simpa using hlt
    | divRaise => rw [hr] at h; cases h
    | rewrite mid k =>
      rw [hr] at h
      injection h with h
      subst h
      have hlt := findRule_rewrite_measure ign a t mid k hr
      rw [foldMeasure_append, foldMeasure_append, foldMeasure_append] at *
      omega

theorem foldOnce_next_measure (ign : Bool) (code c' : List Item)
    (h : foldOnce ign code = .next c') : foldMeasure c' < foldMeasure code := by
  have := scanAux_next_measure ign code [] c' h
  simpa using this

/-- The fixed-point loop of `constant_fold` (optimizer.py:40-42): rescan from
the start after every rewrite, stop on a scan with no rewrite.  Well-founded
on `foldMeasure`, which every rewrite strictly decreases. -/
def constant_fold (ign : Bool) (code : List Item) : Except String (List Item) :=
  match h : foldOnce ign code with
  | .done => .ok code
  | .err e => .error e
  | .next c' => constant_fold ign c'
termination_by foldMeasure code
decreasing_by exact foldOnce_next_measure ign code c' h

/-- The entry point `optimized(code, silent, ignore_errors)`
(optimizer.py:6-8): the sole optimization is constant folding; `silent` only
controls diagnostic printing and has no effect on the result. -/
def optimized (_silent ignore_errors : Bool) (code : List Item) :
    Except String (List Item) :=
  constant_fold ignore_errors code

theorem constant_fold_done (ign : Bool) (code : List Item)
    (h : foldOnce ign code = .done) : constant_fold ign code = .ok code := by
  rw [constant_fold.eq_def]
  split
  · rfl
  · next e heq => rw [h] at heq; cases heq
  · next c' heq => rw [h] at heq; cases heq

theorem constant_fold_err (ign : Bool) (code : List Item) (e : String)
    (h : foldOnce ign code = .err e) : constant_fold ign code = .error e := by
  rw [constant_fold.eq_def]
  split
  · next heq => rw [h] at heq; cases heq
  · next e2 heq => rw [h] at heq; injection heq with heq; rw [heq]
  · next c' heq => rw [h] at heq; cases heq

theorem constant_fold_next (ign : Bool) (code c' : List Item)
    (h : foldOnce ign code = .next c') :
    constant_fold ign code = constant_fold ign c' := by
  rw [constant_fold.eq_def]
  split
  · next heq => rw [h] at heq; cases heq
  · next e heq => rw [h] at heq; cases heq
  · next c2 heq => rw [h] at heq; injection heq with heq; rw [heq]

theorem constant_fold_fixpoint (ign : Bool) :
    ∀ (n : Nat) (c c' : List Item), foldMeasure c ≤ n →
      constant_fold ign c = .ok c' → foldOnce ign c' = .done := by
  intro n
  induction n with
  | zero =>
    intro c c' hm h
    rw [constant_fold.eq_def] at h
    split at h
    · next heq => injection h with h; subst h; exact heq
    · cases h
    · next c2 heq =>
      have := foldOnce_next_measure ign c c2 heq
      omega
  | succ m ih =>
    intro c c' hm h
    rw [constant_fold.eq_def] at h
    split at h
    · next heq => injection h with h; subst h; exact heq
    · cases h
    · next c2 heq =>
      have hlt := foldOnce_next_measure ign c c2 heq
      exact ih c2 c' (by omega) h

end Crianza

namespace Crianza

/-- The `safe_lookup` helper of `check` (compiler.py:9-13): try the lookup,
fall back to the operand itself. -/
def safe_lookup (op : Item) : Item := (lookupItem op).getD op

/-- The binary boolean operator list of `check` (compiler.py:32-34):
`instructions.binary_not/binary_or/binary_and` are the boolean connectives
not/or/and (spec section 4.1 (c)). -/
def binary_ops : List Item := [.fn .boolnot, .fn .boolor, .fn .booland]

/-- The per-index tests of `check` (compiler.py:15-39), in source order:
unknown instruction, string followed by a to-int cast, non-boolean followed
by a binary boolean operator.  `b` is the following item, if any. -/
def checkStep (a : Item) (b : Option Item) : Option String :=
  if isconstant a = false ∧ lookupItem a = none then
    some "Unknown instruction"
  else if isstring a = true ∧ b.map safe_lookup = some (Item.fn Instr.castint) then
    some "Cannot convert string to integer"
  else if isbool a = false ∧ (b.map safe_lookup).any (fun x => x ∈ binary_ops) then
    some "Can only use binary operators on booleans"
  else none

/-- The scan of `check` (compiler.py:15): report the first violation. -/
def checkRun : List Item → Option String
  | [] => none
  | a :: rest =>
    match checkStep a rest.head? with
    | some e => some e
    | none => checkRun rest

/-- `check(code)` (compiler.py:7-40): raise `CompileError` on the first
violation, otherwise return the code unchanged. -/
def check (code : List Item) : Except String (List Item) :=
  match checkRun code with
  | some e => .error e
  | none => .ok code

/-- `to_bool(instr)` (compiler.py:158-166). -/
def to_bool (instr : Item) : Except String Bool :=
  match instr with
  | .bool b => .ok b
  | it =>
    if it = .str "true" then .ok true
    else if it = .str "false" then .ok false
    else .error "Unknown instruction"

/-- Python's quote test of compiler.py:172 applied to an item. -/
def itemQuoted : Item → Bool
  | .str s => pyQuotedStr s
  | _ => false

/-- Strip the quotes off a string item (compiler.py:173). -/
def unquoteItem : Item → Item
  | .str s => .str (pyUnquote s)
  | it => it

/-- One element of `_native_types` (compiler.py:168-180): unwrap quoted
strings, convert boolean keywords to native booleans, keep numbers, resolve
everything else through `lookup` (an unknown word fails). -/
def nativeItem (c : Item) : Except String Item :=
  if isstring c = true ∧ itemQuoted c = true then .ok (unquoteItem c)
  else if isbool c then (to_bool c).map Item.bool
  else if isnumber c then .ok c
  else
    match lookupItem c with
    | some f => .ok f
    | none => .error "Unknown instruction"

/-- `_native_types(code)` (compiler.py:168-180). -/
def nativeTypes (code : List Item) : Except String (List Item) :=
  code.mapM nativeItem

/-- Membership test `name in builtins` (compiler.py:98): the keys of the
machine's instruction dictionary are the mnemonics. -/
def builtinMember : Item → Bool
  | .str s => builtinNames.contains s
  | _ => false

/-- Dictionary write `subroutine[name] = []` (compiler.py:102): reset the
entry, keeping its original position when it already exists. -/
def subsSet : List (Item × List Item) → Item → List (Item × List Item)
  | [], n => [(n, [])]
  | (k, v) :: rest, n =>
    if k = n then (k, []) :: rest else (k, v) :: subsSet rest n

/-- Append an op to a subroutine body, `subroutine[name].append(op)`
(compiler.py:106, compiler.py:109). -/
def subsAppend : List (Item × List Item) → Item → Item → List (Item × List Item)
  | [], n, op => [(n, [op])]
  | (k, v) :: rest, n, op =>
    if k = n then (k, v ++ [op]) :: rest else (k, v) :: subsAppend rest n op

/-- Membership test `op in subroutine` (compiler.py:121, compiler.py:129). -/
def subsMember (subs : List (Item × List Item)) (op : Item) : Bool :=
  subs.any (fun p => p.1 = op)

/-- The subroutine/main split loop (compiler.py:92-113).  The iterator-based
nested `while` loops become one scan with a mode: `none` while in main code,
`some name` while collecting the body of `name`.  A `StopIteration` anywhere
(source: the surrounding `try`) ends the scan with the current state, which
tolerates an unterminated trailing subroutine.  A `:` opens a definition
named by the next token; a name colliding with a built-in word or with a
delimiter raises `CompileError`; a `;` closes the body, appending the
`return` word (`instructions.lookup(instructions.return_)` is the mnemonic
string). -/
def splitLoop : Option Item → List Item → List Item → List (Item × List Item) →
    Except String (List Item × List (Item × List Item))
  | _, [], out, subs => .ok (out, subs)
  | none, w :: ws, out, subs =>
    if w = Item.str ":" then
      match ws with
      | [] => .ok (out, subs)
      | name :: ws2 =>
        if builtinMember name then
          .error "Cannot shadow internal word definition"
        else if name = Item.str ":" ∨ name = Item.str ";" then
          .error "Invalid word name"
        else splitLoop (some name) ws2 out (subsSet subs name)
    else splitLoop none ws (out ++ [w]) subs
  | some name, op :: ws, out, subs =>
    if op = Item.str ";" then
      splitLoop none ws out (subsAppend subs name (Item.str "return"))
    else splitLoop (some name) ws out (subsAppend subs name op)

/-- Call expansion (compiler.py:118-130): after every token naming a known
subroutine, insert the `call` word. -/
def expandOps (subs : List (Item × List Item)) : List Item → List Item
  | [] => []
  | op :: rest =>
    (if subsMember subs op then [op, Item.str "call"] else [op]) ++
      expandOps subs rest

/-- Main-body termination (compiler.py:134-136): append the `exit` word iff
at least one subroutine was discovered. -/
def terminateMain (subs : List (Item × List Item)) (mainX : List Item) :
    List Item :=
  if subs.length > 0 then mainX ++ [Item.str "exit"] else mainX

/-- The per-body optimization inside compile (compiler.py:146-149): when
optimizing, `optimizer.optimized(code, silent=silent, ignore_errors=False)`
— note the hardcoded `ignore_errors=False`. -/
def optBody (optimizeF : Bool) (body : List Item) : Except String (List Item) :=
  if optimizeF then constant_fold false body else .ok body

/-- Subroutine concatenation (compiler.py:142-149): record each start offset
as the current total program length, optimize the body in isolation, append
it. -/
def appendSubs (optimizeF : Bool) :
    List (Item × List Item) → List Item →
    Except String (List (Item × Nat) × List Item)
  | [], out => .ok ([], out)
  | (name, body) :: rest, out => do
    let body2 ← optBody optimizeF body
    let (locs, out2) ← appendSubs optimizeF rest (out ++ body2)
    .ok ((name, out.length) :: locs, out2)

/-- Lookup in the location table (`op in location`, compiler.py:153). -/
def locLookup (locs : List (Item × Nat)) (op : Item) : Option Nat :=
  (locs.find? (fun p => p.1 = op)).map (fun p => p.2)

/-- Symbolic-reference resolution for one item (compiler.py:152-154):
an item matching a recorded subroutine name becomes its integer offset. -/
def resolveItem (locs : List (Item × Nat)) (op : Item) : Item :=
  match locLookup locs op with
  | some n => .int (Int.ofNat n)
  | none => op

/-- Resolution pass over the whole program (compiler.py:152-154). -/
def resolve (locs : List (Item × Nat)) (code : List Item) : List Item :=
  code.map (resolveItem locs)

/-- Steps 1-6 of `compile` (compiler.py:92-154): split, expand subroutine
bodies and main, terminate main, optimize main (with the hardcoded
`ignore_errors=False`, compiler.py:140), concatenate subroutines recording
offsets, and resolve symbolic references.  Returns the location table
together with the resolved program. -/
def compileLink (optimizeF : Bool) (tokens : List Item) :
    Except String (List (Item × Nat) × List Item) := do
  let (out, subs) ← splitLoop none tokens [] []
  let subsX := subs.map (fun p => (p.1, expandOps subs p.2))
  let mainT := terminateMain subs (expandOps subs out)
  let main2 ← if optimizeF then constant_fold false mainT else pure mainT
  let (locs, full) ← appendSubs optimizeF subsX main2
  .ok (locs, resolve locs full)

/-- `compile(code, silent, ignore_errors, optimize)` (compiler.py:42-156).
The `silent` and `ignore_errors` parameters are declared but the optimizer
is always invoked with `ignore_errors=False` (compiler.py:140 and
compiler.py:147), so neither parameter reaches the result.  The final line
is `return check(_native_types(output))` (compiler.py:156): materialization
first, validation second. -/
def compile (_silent _ignore_errors optimizeF : Bool) (tokens : List Item) :
    Except String (List Item) := do
  let (_, resolved) ← compileLink optimizeF tokens
  let materialized ← nativeTypes resolved
  check materialized

/-- The pipeline the spec asserts instead (spec section 4.3 steps 7-8):
validate the fully resolved program first, materialize literals second.
This definition follows the words of the spec and exists to be compared
with `compile`. -/
def compileCheckFirst (optimizeF : Bool) (tokens : List Item) :
    Except String (List Item) := do
  let (_, resolved) ← compileLink optimizeF tokens
  let checked ← check resolved
  nativeTypes checked

end Crianza

namespace Crianza

theorem ebind_ok {ε α β : Type} (a : α) (f : α → Except ε β) :
    (Except.ok a : Except ε α) >>= f = f a := rfl

theorem ebind_err {ε α β : Type} (e : ε) (f : α → Except ε β) :
    (Except.error e : Except ε α) >>= f = .error e := rfl

/-- Fuel-bounded unfolding of the rewrite loop; with fuel at least
`foldMeasure code` it coincides with `constant_fold` (each rewrite strictly
decreases the measure), and being structurally recursive it evaluates inside
the kernel. -/
def foldFuel (ign : Bool) : Nat → List Item → Except String (List Item)
  | 0, code => .ok code
  | n + 1, code =>
    match foldOnce ign code with
    | .done => .ok code
    | .err e => .error e
    | .next c2 => foldFuel ign n c2

theorem foldFuel_adequate (ign : Bool) :
    ∀ (n : Nat) (code : List Item), foldMeasure code ≤ n →
      foldFuel ign n code = constant_fold ign code := by
  intro n
  induction n with
  | zero =>
    intro code hm
    have hnil : code = [] := by
      cases code with
      | nil => rfl
      | cons a t => simp [foldMeasure] at hm
    subst hnil
    have hdone : foldOnce ign [] = .done := rfl
    rw [constant_fold_done ign [] hdone]
    rfl
  | succ m ih =>
    intro code hm
    cases hf : foldOnce ign code with
    | done => rw [constant_fold_done _ _ hf]; simp [foldFuel, hf]
    | err e => rw [constant_fold_err _ _ _ hf]; simp [foldFuel, hf]
    | next c2 =>
      rw [constant_fold_next _ _ _ hf]
      have hlt := foldOnce_next_measure ign code c2 hf
      simp only [foldFuel, hf]
      exact ih c2 (by omega)

/-- Kernel-computable form of `constant_fold`. -/
def constant_foldC (ign : Bool) (code : List Item) : Except String (List Item) :=
  foldFuel ign (foldMeasure code) code

theorem constant_fold_eqC (ign : Bool) (code : List Item) :
    constant_fold ign code = constant_foldC ign code :=
  (foldFuel_adequate ign (foldMeasure code) code le_rfl).symm

/-- Kernel-computable form of `optBody`. -/
def optBodyC (optimizeF : Bool) (body : List Item) : Except String (List Item) :=
  if optimizeF then constant_foldC false body else .ok body

/-- Kernel-computable form of `appendSubs`. -/
def appendSubsC (optimizeF : Bool) :
    List (Item × List Item) → List Item →
    Except String (List (Item × Nat) × List Item)
  | [], out => .ok ([], out)
  | (name, body) :: rest, out => do
    let body2 ← optBodyC optimizeF body
    let (locs, out2) ← appendSubsC optimizeF rest (out ++ body2)
    .ok ((name, out.length) :: locs, out2)

/-- Kernel-computable form of `compileLink`. -/
def compileLinkC (optimizeF : Bool) (tokens : List Item) :
    Except String (List (Item × Nat) × List Item) := do
  let (out, subs) ← splitLoop none tokens [] []
  let subsX := subs.map (fun p => (p.1, expandOps subs p.2))
  let mainT := terminateMain subs (expandOps subs out)
  let main2 ← if optimizeF then constant_foldC false mainT else pure mainT
  let (locs, full) ← appendSubsC optimizeF subsX main2
  .ok (locs, resolve locs full)

/-- Kernel-computable form of `compile`. -/
def compileC (optimizeF : Bool) (tokens : List Item) :
    Except String (List Item) := do
  let (_, resolved) ← compileLinkC optimizeF tokens
  let materialized ← nativeTypes resolved
  check materialized

/-- Kernel-computable form of `compileCheckFirst`. -/
def compileCheckFirstC (optimizeF : Bool) (tokens : List Item) :
    Except String (List Item) := do
  let (_, resolved) ← compileLinkC optimizeF tokens
  let checked ← check resolved
  nativeTypes checked

theorem optBody_eqC (o : Bool) (b : List Item) : optBody o b = optBodyC o b := by
  unfold optBody optBodyC
  rw [constant_fold_eqC]

theorem appendSubs_eqC (o : Bool) :
    ∀ (subs : List (Item × List Item)) (out : List Item),
      appendSubs o subs out = appendSubsC o subs out := by
  intro subs
  induction subs with
  | nil => intro out; rfl
  | cons p rest ih =>
    intro out
    obtain ⟨name, body⟩ := p
    simp only [appendSubs, appendSubsC]
    rw [optBody_eqC]
    cases hb : optBodyC o body with
    | error e => rfl
    | ok body2 =>
      simp only [ebind_ok]
      rw [ih]

theorem compileLink_eqC (o : Bool) (t : List Item) :
    compileLink o t = compileLinkC o t := by
  unfold compileLink compileLinkC
  cases hs : splitLoop none t [] [] with
  | error e => rfl
  | ok pr =>
    obtain ⟨out, subs⟩ := pr
    simp only [ebind_ok, constant_fold_eqC, appendSubs_eqC]

theorem compile_eqC (s i o : Bool) (t : List Item) :
    compile s i o t = compileC o t := by
  unfold compile compileC
  simp only [compileLink_eqC]

theorem compileCheckFirst_eqC (o : Bool) (t : List Item) :
    compileCheckFirst o t = compileCheckFirstC o t := by
  unfold compileCheckFirst compileCheckFirstC
  simp only [compileLink_eqC]

theorem optimized_eqC (s i : Bool) (code : List Item) :
    optimized s i code = constant_foldC i code :=
  constant_fold_eqC i code

end Crianza

namespace Crianza

theorem appendSubs_extends (o : Bool) :
    ∀ (subs : List (Item × List Item)) (out : List Item)
      (locs : List (Item × Nat)) (full : List Item),
      appendSubs o subs out = .ok (locs, full) → ∃ t, full = out ++ t := by
  intro subs
  induction subs with
  | nil =>
    intro out locs full h
    simp only [appendSubs] at h
    injection h with h
    injection h with h1 h2
    exact ⟨[], by rw [← h2]; simp⟩
  | cons p rest ih =>
    intro out locs full h
    obtain ⟨name, body⟩ := p
    simp only [appendSubs] at h
    cases hb : optBody o body with
    | error e => rw [hb] at h; simp [ebind_err] at h
    | ok body2 =>
      rw [hb] at h
      simp only [ebind_ok] at h
      cases hr : appendSubs o rest (out ++ body2) with
      | error e => rw [hr] at h; simp [ebind_err] at h
      | ok pr =>
        obtain ⟨locs2, out2⟩ := pr
        rw [hr] at h
        simp only [ebind_ok] at h
        injection h with h
        injection h with h1 h2
        obtain ⟨t, ht⟩ := ih (out ++ body2) locs2 out2 hr
        refine ⟨body2 ++ t, ?_⟩
        rw [← h2, ht, List.append_assoc]

theorem appendSubs_slice (o : Bool) :
    ∀ (subs : List (Item × List Item)) (out : List Item)
      (locs : List (Item × Nat)) (full : List Item),
      appendSubs o subs out = .ok (locs, full) →
      ∀ (name : Item) (off : Nat), locLookup locs name = some off →
        ∃ body body2, (name, body) ∈ subs ∧ optBody o body = .ok body2 ∧
          (full.drop off).take body2.length = body2 := by
  intro subs
  induction subs with
  | nil =>
    intro out locs full h name off hl
    simp only [appendSubs] at h
    injection h with h
    injection h with h1 h2
    rw [← h1] at hl
    simp [locLookup] at hl
  | cons p rest ih =>
    intro out locs full h name off hl
    obtain ⟨nm, body⟩ := p
    simp only [appendSubs] at h
    cases hb : optBody o body with
    | error e => rw [hb] at h; simp [ebind_err] at h
    | ok body2 =>
      rw [hb] at h
      simp only [ebind_ok] at h
      cases hr : appendSubs o rest (out ++ body2) with
      | error e => rw [hr] at h; simp [ebind_err] at h
      | ok pr =>
        obtain ⟨locs2, out2⟩ := pr
        rw [hr] at h
        simp only [ebind_ok] at h
        injection h with h
        injection h with h1 h2
        subst h1
        subst h2
        by_cases hn : nm = name
        · subst hn
          have hoff : off = out.length := by
            simp [locLookup, List.find?] at hl
            omega
          subst hoff
          refine ⟨body, body2, List.mem_cons_self _ _, hb, ?_⟩
          obtain ⟨t, ht⟩ := appendSubs_extends o rest (out ++ body2) locs2 out2 hr
          rw [ht, List.append_assoc, List.drop_left]
          exact List.take_left ..
        · have hl2 : locLookup locs2 name = some off := by
            simp [locLookup, List.find?, hn] at hl ⊢
            exact hl
          obtain ⟨body', body2', hmem, hob, hsl⟩ :=
            ih (out ++ body2) locs2 out2 hr name off hl2
          exact ⟨body', body2', List.mem_cons_of_mem _ hmem, hob, hsl⟩

end Crianza

namespace Crianza

/-- C1: Under default settings (`silent=True, ignore_errors=False,
optimize=True`), compiling the token sequence `[5, 0, "/"]` does NOT succeed:
`compile` hardcodes `ignore_errors=False` into the optimizer
(compiler.py:140), whose zero-divisor branch then raises, so compilation
aborts with `CompileError("Division by zero")` — contradicting compile's own
docstring ("if set to False it will not raise any exceptions") and the
optimizer's comment ("we don't report it here ... just leave it for now").
The second conjunct shows the behaviour the claim (and the documentation)
describe: with the optimizer's own default `ignore_errors=True`, the triple
is left unfolded and no error is raised. -/
theorem compile_divzero_raises :
    compile true false true [Item.int 5, Item.int 0, Item.str "/"] =
      .error "Division by zero" ∧
    optimized true true [Item.int 5, Item.int 0, Item.str "/"] =
      .ok [Item.int 5, Item.int 0, Item.str "/"] := by
  constructor
  · rw [compile_eqC]; decide
  · rw [optimized_eqC]; decide

/-- C2 counterexample: validation is NOT performed before literal
materialization.  On the tokens `["5"-quoted, "int"-quoted]` (two string
literals), `compile` — which runs `check(_native_types(output))`,
compiler.py:156 — raises, because materialization strips the quotes and the
bare word `5` then fails the unknown-instruction test; the order the claim
asserts (validate the resolved program, then materialize) succeeds and
returns the materialized program. -/
theorem compile_validation_order_counterexample :
    compile true false true [Item.str (pyQuote "5"), Item.str (pyQuote "int")] =
      .error "Unknown instruction" ∧
    compileCheckFirst true [Item.str (pyQuote "5"), Item.str (pyQuote "int")] =
      .ok [Item.str "5", Item.str "int"] := by
  constructor
  · rw [compile_eqC]; decide
  · rw [compileCheckFirst_eqC]; decide

/-- C2 (amended): validation is performed on the already-materialized
program: for every token sequence and every argument combination, compile's
result equals applying the literal-materialization step (`_native_types`) to
the resolved sequence first and the validator (`check`) to the materialized
sequence afterwards (compiler.py:156, `return check(_native_types(output))`). -/
theorem compile_materializes_then_validates (s i o : Bool) (tokens : List Item) :
    compile s i o tokens =
      (compileLink o tokens).bind (fun pr => (nativeTypes pr.2).bind check) := by
  unfold compile
  cases h : compileLink o tokens with
  | error e => rfl
  | ok pr =>
    obtain ⟨locs, resolved⟩ := pr
    rfl

/-- C3: the optimizer is idempotent: running `optimized` on its own output
changes nothing (composition via `bind`; the error outcome propagates
unchanged on both sides).  Once the rewrite loop stops, a rescan of the
result finds no rule to apply, so the second run returns its input. -/
theorem optimized_idempotent (s i : Bool) (code : List Item) :
    Except.bind (optimized s i code) (optimized s i) = optimized s i code := by
  cases h : optimized s i code with
  | error e => rfl
  | ok c2 =>
    have hfix := constant_fold_fixpoint i (foldMeasure code) code c2 le_rfl h
    show optimized s i c2 = Except.ok c2
    exact constant_fold_done i c2 hfix

/-- C4: the constant-folding rewrite loop terminates on every finite input:
every applied rewrite strictly decreases the natural measure `foldMeasure`
(sequence length plus number of non-constant items — each rule either
strictly shortens the sequence or replaces a non-constant item by a constant
its own guard no longer matches), so no infinite rewrite sequence exists;
and the loop indeed stops only at a fixed point: a rescan of any successful
result performs no rewrite. -/
theorem constant_fold_rewrite_decreases (ign : Bool) (code c2 : List Item) :
    (foldOnce ign code = .next c2 → foldMeasure c2 < foldMeasure code) ∧
    (∀ r : List Item, constant_fold ign code = .ok r → foldOnce ign r = .done) := by
  constructor
  · exact foldOnce_next_measure ign code c2
  · intro r h
    exact constant_fold_fixpoint ign (foldMeasure code) code r le_rfl h

theorem constant_fold_rewrite_decreases_witness :
    foldMeasure [Item.int 5] < foldMeasure [Item.int 2, Item.int 3, Item.str "+"] ∧
    foldOnce true [Item.int 5] = .done :=
  ⟨(constant_fold_rewrite_decreases true [Item.int 2, Item.int 3, Item.str "+"]
      [Item.int 5]).1 (by decide),
   (constant_fold_rewrite_decreases true [Item.int 2, Item.int 3, Item.str "+"]
      [Item.int 5]).2 [Item.int 5] (by rw [constant_fold_eqC]; decide)⟩

/-- C5: address correctness of the linker (compiler.py:142-154).  Whenever
the subroutine-concatenation step succeeds, every entry `(name, off)` of the
location table satisfies: the item `name` resolves to exactly the integer
`off`, and the (optimized) body of `name` occupies the slice of the
concatenated program starting at index `off` — also after the resolution
pass, which rewrites items positionally and so preserves indices. -/
theorem subroutine_addresses_correct (o : Bool) (subs : List (Item × List Item))
    (out full : List Item) (locs : List (Item × Nat))
    (h : appendSubs o subs out = .ok (locs, full))
    (name : Item) (off : Nat) (hl : locLookup locs name = some off) :
    resolveItem locs name = .int (Int.ofNat off) ∧
    ∃ body body2, (name, body) ∈ subs ∧ optBody o body = .ok body2 ∧
      (full.drop off).take body2.length = body2 ∧
      ((resolve locs full).drop off).take body2.length = resolve locs body2 := by
  refine ⟨by simp [resolveItem, hl], ?_⟩
  obtain ⟨body, body2, hmem, hob, hsl⟩ :=
    appendSubs_slice o subs out locs full h name off hl
  refine ⟨body, body2, hmem, hob, hsl, ?_⟩
  have hmaps : ((resolve locs full).drop off).take body2.length =
      resolve locs ((full.drop off).take body2.length) := by
    simp [resolve, List.map_take, List.map_drop]
  rw [hmaps, hsl]

theorem subroutine_addresses_correct_witness :
    resolveItem [(Item.str "double", 4)] (Item.str "double") = Item.int (Int.ofNat 4) ∧
    ∃ body body2,
      (Item.str "double", body) ∈
        [(Item.str "double", [Item.str "dup", Item.str "+", Item.str "return"])] ∧
      optBody true body = .ok body2 ∧
      (([Item.int 4, Item.str "double", Item.str "call", Item.str "exit",
         Item.str "dup", Item.str "+", Item.str "return"].drop 4)).take body2.length =
        body2 ∧
      ((resolve [(Item.str "double", 4)]
          [Item.int 4, Item.str "double", Item.str "call", Item.str "exit",
           Item.str "dup", Item.str "+", Item.str "return"]).drop 4).take body2.length =
        resolve [(Item.str "double", 4)] body2 :=
  subroutine_addresses_correct true
    [(Item.str "double", [Item.str "dup", Item.str "+", Item.str "return"])]
    [Item.int 4, Item.str "double", Item.str "call", Item.str "exit"]
    [Item.int 4, Item.str "double", Item.str "call", Item.str "exit",
     Item.str "dup", Item.str "+", Item.str "return"]
    [(Item.str "double", 4)]
    (by rw [appendSubs_eqC]; decide)
    (Item.str "double") 4 (by decide)

/-- C6: applying the validator directly to the quoted string literal `"5"`
followed by the to-int cast raises `CompileError` (compiler.py:25-29), even
though the optimizer folds the very same pair to the integer 5. -/
theorem check_string_int_raises :
    check [Item.str (pyQuote "5"), Item.str "int"] =
      .error "Cannot convert string to integer" ∧
    optimized true true [Item.str (pyQuote "5"), Item.str "int"] =
      .ok [Item.int 5] := by
  refine ⟨by decide, ?_⟩
  rw [optimized_eqC]
  decide

/-- C7: the string-to-int folding rule (optimizer.py:132-144).  For a quoted
string literal followed by the to-int cast token: when the unquoted content
parses as an integer the pair is replaced by the single parsed integer
literal, otherwise the pair is left entirely unchanged for the runtime. -/
theorem string_int_fold_rule (ign : Bool) (s : String) (hq : pyQuotedStr s = true) :
    (∀ n : Int, pyParseInt (pyUnquote s) = some n →
      optimized true ign [Item.str s, Item.str "int"] = .ok [Item.int n]) ∧
    (pyParseInt (pyUnquote s) = none →
      optimized true ign [Item.str s, Item.str "int"] =
        .ok [Item.str s, Item.str "int"]) := by
  have hc : isconstant (Item.str s) = true := by simp [isconstant, isstring, hq]
  constructor
  · intro n hp
    have hstep : foldOnce ign [Item.str s, Item.str "int"] = .next [Item.int n] := by
      simp [foldOnce, scanAux, findRule, tryRule1, tryRule2, tryRule3, tryRule4,
            tryRule5, tryRule6, tryRule7, tryRule8, tryRule9, isstring,
            isinstance_int, isinstance_str, isinstance_bool, rawStr, hq, hp]
    have hdone : foldOnce ign [Item.int n] = .done := rfl
    show constant_fold ign [Item.str s, Item.str "int"] = .ok [Item.int n]
    rw [constant_fold_next _ _ _ hstep, constant_fold_done _ _ hdone]
  · intro hp
    have hstep : foldOnce ign [Item.str s, Item.str "int"] = .done := by
      simp [foldOnce, scanAux, findRule, tryRule1, tryRule2, tryRule3, tryRule4,
            tryRule5, tryRule6, tryRule7, tryRule8, tryRule9, tryRule10, tryRule11,
            isstring, isinstance_int, isinstance_str, isinstance_bool, rawStr,
            hq, hp, hc]
    show constant_fold ign [Item.str s, Item.str "int"] =
      .ok [Item.str s, Item.str "int"]
    exact constant_fold_done _ _ hstep

theorem string_int_fold_rule_witness :
    pyQuotedStr (pyQuote "7") = true ∧
    optimized true true [Item.str (pyQuote "7"), Item.str "int"] = .ok [Item.int 7] :=
  ⟨by decide, (string_int_fold_rule true (pyQuote "7") (by decide)).1 7 (by decide)⟩

theorem splitLoop_skip (w : Item) (hw : w ≠ Item.str ":") (ws out : List Item)
    (subs : List (Item × List Item)) :
    splitLoop none (w :: ws) out subs = splitLoop none ws (out ++ [w]) subs := by
  rw [splitLoop.eq_def]
  simp [hw]

theorem splitLoop_collision :
    ∀ (pre : List Item), (∀ t ∈ pre, t ≠ Item.str ":") →
    ∀ (name : String),
      (name ∈ builtinNames ∨ name = ":" ∨ name = ";") →
    ∀ (rest out : List Item) (subs : List (Item × List Item)),
      ∃ e, splitLoop none (pre ++ Item.str ":" :: Item.str name :: rest) out subs =
        .error e := by
  intro pre
  induction pre with
  | nil =>
    intro _ name hbad rest out subs
    by_cases hbm : name ∈ builtinNames
    · refine ⟨"Cannot shadow internal word definition", ?_⟩
      simp [splitLoop, builtinMember, hbm]
    · have hname : name = ":" ∨ name = ";" := by
        rcases hbad with hb | hb | hb
        · exact absurd hb hbm
        · exact Or.inl hb
        · exact Or.inr hb
      refine ⟨"Invalid word name", ?_⟩
      simp [splitLoop, builtinMember, hbm, hname]
  | cons w pre ih =>
    intro hpre name hbad rest out subs
    have hw : w ≠ Item.str ":" := hpre w (List.mem_cons_self _ _)
    obtain ⟨e, he⟩ :=
      ih (fun t ht => hpre t (List.mem_cons_of_mem _ ht)) name hbad rest
        (out ++ [w]) subs
    refine ⟨e, ?_⟩
    rw [List.cons_append, splitLoop_skip w hw]
    exact he

/-- C8: `compile` raises `CompileError` whenever a subroutine's declared
name equals an instruction mnemonic of the built-in instruction set or one
of the delimiter symbols `:` and `;` (compiler.py:97-101), aborting the
whole compilation with an error and no output.  `pre` is any main-code
prefix (containing no definition opener) preceding the offending
definition. -/
theorem compile_name_collision (s i o : Bool) (pre : List Item)
    (hpre : ∀ t ∈ pre, t ≠ Item.str ":") (name : String)
    (hbad : name ∈ builtinNames ∨ name = ":" ∨ name = ";")
    (rest : List Item) :
    ∃ e, compile s i o (pre ++ Item.str ":" :: Item.str name :: rest) = .error e := by
  obtain ⟨e, he⟩ := splitLoop_collision pre hpre name hbad rest [] []
  refine ⟨e, ?_⟩
  unfold compile compileLink
  rw [he]
  rfl

theorem compile_name_collision_witness :
    ∃ e, compile true false true [Item.str ":", Item.str "dup"] = .error e :=
  compile_name_collision true false true []
    (fun t ht => absurd ht (List.not_mem_nil t)) "dup" (Or.inl (by decide)) []

/-- C9: after call expansion, exactly one `exit` word is appended to the end
of the expanded main body iff at least one subroutine was discovered
(compiler.py:134-136); with no subroutine the main body passes through this
step unchanged. -/
theorem exit_appended_iff_subroutines (subs : List (Item × List Item))
    (mainX : List Item) :
    (subs ≠ [] → terminateMain subs mainX = mainX ++ [Item.str "exit"]) ∧
    (subs = [] → terminateMain subs mainX = mainX) := by
  constructor
  · intro h
    unfold terminateMain
    rw [if_pos]
    exact List.length_pos.mpr h
  · intro h
    subst h
    rfl

theorem exit_appended_iff_subroutines_witness :
    terminateMain [(Item.str "f", ([] : List Item))] [Item.int 1] =
      [Item.int 1, Item.str "exit"] ∧
    terminateMain ([] : List (Item × List Item)) [Item.int 1] = [Item.int 1] :=
  ⟨(exit_appended_iff_subroutines [(Item.str "f", [])] [Item.int 1]).1 (by simp),
   (exit_appended_iff_subroutines [] [Item.int 1]).2 rfl⟩

/-- C10: the `ignore_errors` parameter of `compile` has no effect: the
optimizer is always invoked with a hardcoded `ignore_errors=False`
(compiler.py:140, compiler.py:147), so for every token sequence and every
combination of the other arguments the result — including any raised error —
is identical for both parameter values. -/
theorem ignore_errors_no_effect (s o i1 i2 : Bool) (tokens : List Item) :
    compile s i1 o tokens = compile s i2 o tokens := rfl

end Crianza
